import Mathlib

/-!
Verification of the OpenComp kernel core: the bitmap physical-page
allocator (memory.c) and the component registry / round-robin
scheduler (kernel.c), shallowly embedded in Lean 4.

Machine integers are modelled as `Nat` with explicit `% 2 ^ 64` where
the C code relies on `uint64_t` wraparound.  The page bitmap is the
byte array `page_bitmap` of memory.c, modelled as a function from byte
index to byte value with the same `|`, `&`, `~`, `<<` manipulations.
Physical memory content is a function from byte address to byte value.
-/

namespace OpenComp

/-! ## Allocator constants (memory.c) -/

def PAGE_SIZE : Nat := 4096

def TOTAL_PAGES : Nat := 4096

def BITMAP_SIZE : Nat := TOTAL_PAGES / 8

def base_address : Nat := 0x200000

/-- `2 ^ 64`, the modulus of `uint64_t` arithmetic. -/
def U64 : Nat := 2 ^ 64

/-- Allocator state: the byte array `page_bitmap`, the `uint64_t`
counter `free_pages`, and the content of physical memory (byte
address to byte value). -/
structure MemState where
  page_bitmap : Nat → Nat
  free_pages : Nat
  mem : Nat → Nat

/-- `page_bitmap[page / 8] |= (1 << (page % 8));` -/
def set_page_used (bm : Nat → Nat) (page : Nat) : Nat → Nat :=
  fun b => if b = page / 8 then bm b ||| (1 <<< (page % 8)) else bm b

/-- `page_bitmap[page / 8] &= ~(1 << (page % 8));` — the complement is
taken in `int` and the result truncated back to `uint8_t`, which on a
byte value equals masking with `(2 ^ 8 - 1) ^^^ (1 <<< (page % 8))`. -/
def set_page_free (bm : Nat → Nat) (page : Nat) : Nat → Nat :=
  fun b => if b = page / 8 then bm b &&& ((2 ^ 8 - 1) ^^^ (1 <<< (page % 8))) else bm b

/-- `(page_bitmap[page / 8] & (1 << (page % 8))) != 0` -/
def is_page_used (bm : Nat → Nat) (page : Nat) : Bool :=
  bm (page / 8) &&& (1 <<< (page % 8)) != 0

/-- The scan loop of `kalloc_page`: `for (i = 0; i < TOTAL_PAGES; i++)
if (!is_page_used(i)) ...`, starting at index `i` with `rem` iterations
left (`rem = TOTAL_PAGES - i`), returning the first free index. -/
def find_free_loop (bm : Nat → Nat) (i : Nat) : Nat → Option Nat
  | 0 => none
  | rem + 1 => if is_page_used bm i then find_free_loop bm (i + 1) rem else some i

/-- Zeroing the full page starting at byte address `a0`
(`for (j = 0; j < PAGE_SIZE/8; j++) p[j] = 0;` — 512 `uint64_t`
stores covering exactly the `PAGE_SIZE` bytes of the page). -/
def zero_page (m : Nat → Nat) (a0 : Nat) : Nat → Nat :=
  fun a => if a0 ≤ a ∧ a < a0 + PAGE_SIZE then 0 else m a

/-- `kalloc_page`: first-fit scan; on success mark the page used,
decrement `free_pages` (uint64 wraparound), zero the page and return
its address; on failure return `NULL` (`none`). -/
def kalloc_page (st : MemState) : Option Nat × MemState :=
  match find_free_loop st.page_bitmap 0 TOTAL_PAGES with
  | some i =>
      (some (base_address + i * PAGE_SIZE),
       { page_bitmap := set_page_used st.page_bitmap i
         free_pages := (st.free_pages + (U64 - 1)) % U64
         mem := zero_page st.mem (base_address + i * PAGE_SIZE) })
  | none => (none, st)

/-- The index computation of `kfree_page`:
`((uint64_t)addr - base_address) / PAGE_SIZE`, the subtraction taken
modulo `2 ^ 64`. -/
def page_index_of (addr : Nat) : Nat :=
  ((addr + (U64 - base_address)) % U64) / PAGE_SIZE

/-- `kfree_page`: compute the page index; if in range, clear the bit
and increment `free_pages`; otherwise do nothing. -/
def kfree_page (addr : Nat) (st : MemState) : MemState :=
  if page_index_of addr < TOTAL_PAGES then
    { page_bitmap := set_page_free st.page_bitmap (page_index_of addr)
      free_pages := (st.free_pages + 1) % U64
      mem := st.mem }
  else st

/-- `get_free_pages`. -/
def get_free_pages (st : MemState) : Nat :=
  st.free_pages

/-- State right after `memory_init`: the bitmap is zeroed; the static
initializer sets `free_pages = TOTAL_PAGES`; memory content `m0` is
whatever it was. -/
def initState (m0 : Nat → Nat) : MemState :=
  { page_bitmap := fun _ => 0, free_pages := TOTAL_PAGES, mem := m0 }

/-- Number of pages whose bitmap bit is set (`Used`). -/
def used_count_bm (bm : Nat → Nat) : Nat :=
  ((Finset.range TOTAL_PAGES).filter (fun q => is_page_used bm q = true)).card

def used_page_count (st : MemState) : Nat :=
  used_count_bm st.page_bitmap

/-! ## Sequences of allocator calls -/

/-- One allocator call: `kalloc_page()` or `kfree_page(addr)`. -/
inductive AllocOp where
  | alloc : AllocOp
  | free (addr : Nat) : AllocOp

/-- State after a sequence of allocator calls. -/
def runOps (st : MemState) : List AllocOp → MemState
  | [] => st
  | AllocOp.alloc :: rest => runOps (kalloc_page st).2 rest
  | AllocOp.free a :: rest => runOps (kfree_page a st) rest

/-- The sequence of results returned by the `kalloc_page` calls in a
run. -/
def allocAddrs (st : MemState) : List AllocOp → List (Option Nat)
  | [] => []
  | AllocOp.alloc :: rest => (kalloc_page st).1 :: allocAddrs (kalloc_page st).2 rest
  | AllocOp.free a :: rest => allocAddrs (kfree_page a st) rest

/-- A free call is well-formed when its address is out of range or
targets a page currently marked `Used`. -/
def okFree (st : MemState) (addr : Nat) : Bool :=
  !(page_index_of addr < TOTAL_PAGES) || is_page_used st.page_bitmap (page_index_of addr)

/-- A run is well-formed when every free call in it is. -/
def okRun (st : MemState) : List AllocOp → Bool
  | [] => true
  | AllocOp.alloc :: rest => okRun (kalloc_page st).2 rest
  | AllocOp.free a :: rest => okFree st a && okRun (kfree_page a st) rest

/-- Results and state of `n` consecutive `kalloc_page` calls. -/
def kallocN : Nat → MemState → List (Option Nat) × MemState
  | 0, st => ([], st)
  | n + 1, st =>
      let r := kalloc_page st
      let rest := kallocN n r.2
      (r.1 :: rest.1, rest.2)

/-! ## Component registry and scheduler (kernel.c)

A `struct component` carries a possibly-null `name` and possibly-null
`init` / `tick` function pointers; non-null pointers are modelled as
`some` of an abstract identifier.  The component table is the list of
(possibly null) `struct component *` entries of the `.comps` section.
The VGA text output and the handler invocations are abstracted into an
event trace: one event per status line, per `init()` call and per
`tick()` call, tagged with the table position that produced it. -/

structure Component where
  name : Option String
  init : Option Nat
  tick : Option Nat

inductive KEvent where
  | noComponents
  | statusLine (idx : Nat) (nm : String)
  | initCall (idx : Nat)
  | tickCall (idx : Nat)
deriving DecidableEq

/-- The body of the `while (it < end)` loop of
`register_components_and_init`, starting at table position `i`:
`if (c && c->name) { puts("Component: "); puts(c->name);
puts(" - init\n"); if (c->init) c->init(); }`. -/
def comp_init_events (i : Nat) : List (Option Component) → List KEvent
  | [] => []
  | c? :: rest =>
      (match c? with
       | some c =>
           match c.name with
           | some nm =>
               KEvent.statusLine i nm ::
                 (match c.init with
                  | some _ => [KEvent.initCall i]
                  | none => [])
           | none => []
       | none => []) ++ comp_init_events (i + 1) rest

/-- `register_components_and_init`: on an empty table print
"No components found." and return; otherwise run the loop. -/
def register_components_and_init (tbl : List (Option Component)) : List KEvent :=
  if tbl.isEmpty then [KEvent.noComponents] else comp_init_events 0 tbl

/-- One pass of the `for (p = it; p < end; ++p)` loop of
`kernel_main_loop`: `if (c && c->tick) c->tick();`. -/
def comp_tick_events (i : Nat) : List (Option Component) → List KEvent
  | [] => []
  | c? :: rest =>
      (match c? with
       | some c =>
           match c.tick with
           | some _ => [KEvent.tickCall i]
           | none => []
       | none => []) ++ comp_tick_events (i + 1) rest

def kernel_tick_pass (tbl : List (Option Component)) : List KEvent :=
  comp_tick_events 0 tbl

/-- `n` consecutive passes of the main loop (the busy-wait delay
between passes produces no events). -/
def kernel_passes (tbl : List (Option Component)) : Nat → List KEvent
  | 0 => []
  | n + 1 => kernel_tick_pass tbl ++ kernel_passes tbl n

/-- The event trace of `kernel_main` after `n` complete scheduler
passes: the init phase followed by `n` tick passes. -/
def kernel_trace (tbl : List (Option Component)) (n : Nat) : List KEvent :=
  register_components_and_init tbl ++ kernel_passes tbl n

/-- Projection: table positions whose `init` was called, in call
order. -/
def initSeq (es : List KEvent) : List Nat :=
  es.filterMap fun e =>
    match e with
    | KEvent.initCall i => some i
    | _ => none

/-- Projection: table positions whose `tick` was called, in call
order. -/
def tickSeq (es : List KEvent) : List Nat :=
  es.filterMap fun e =>
    match e with
    | KEvent.tickCall i => some i
    | _ => none

/-- Table positions holding a non-null component with a present
`init`, in table order (positions counted from `i`).  For a table of
non-null, named components this is the expected init call sequence. -/
def inits_expected (i : Nat) : List (Option Component) → List Nat
  | [] => []
  | c? :: rest =>
      (match c? with
       | some c =>
           match c.init with
           | some _ => [i]
           | none => []
       | none => []) ++ inits_expected (i + 1) rest

/-- Table positions holding a non-null component with a present
`tick`, in table order. -/
def ticks_expected (i : Nat) : List (Option Component) → List Nat
  | [] => []
  | c? :: rest =>
      (match c? with
       | some c =>
           match c.tick with
           | some _ => [i]
           | none => []
       | none => []) ++ ticks_expected (i + 1) rest

/-- A non-null table entry with a non-null name. -/
def isNamedComp : Option Component → Bool
  | some c => c.name.isSome
  | none => false

/-! ## Bitmap lemmas -/

theorem is_page_used_eq_testBit (bm : Nat → Nat) (p : Nat) :
    is_page_used bm p = (bm (p / 8)).testBit (p % 8) := by
  unfold is_page_used
  rw [Nat.shiftLeft_eq, one_mul, Nat.and_two_pow]
  cases h : (bm (p / 8)).testBit (p % 8) <;>
    simp [h, (Nat.two_pow_pos (p % 8)).ne']

theorem eq_of_div_mod_eq {p q : Nat} (hd : q / 8 = p / 8) (hm : q % 8 = p % 8) :
    q = p := by
  have h1 := Nat.div_add_mod p 8
  have h2 := Nat.div_add_mod q 8
  omega

theorem is_page_used_set_used (bm : Nat → Nat) (p q : Nat) :
    is_page_used (set_page_used bm p) q = (q == p || is_page_used bm q) := by
  rw [is_page_used_eq_testBit, is_page_used_eq_testBit]
  unfold set_page_used
  by_cases hb : q / 8 = p / 8
  · rw [if_pos hb, Nat.shiftLeft_eq, one_mul, Nat.testBit_lor, Nat.testBit_two_pow]
    by_cases hm : q % 8 = p % 8
    · have hqp : q = p := eq_of_div_mod_eq hb hm
      subst hqp
      simp
    · have hqp : (q == p) = false := beq_eq_false_iff_ne.mpr (fun h => hm (by rw [h]))
      have hpm : decide (p % 8 = q % 8) = false := decide_eq_false (fun h => hm h.symm)
      rw [hqp, hpm]
      simp
  · rw [if_neg hb]
    have hqp : (q == p) = false := beq_eq_false_iff_ne.mpr (fun h => hb (by rw [h]))
    rw [hqp]
    simp

theorem is_page_used_set_free (bm : Nat → Nat) (p q : Nat) :
    is_page_used (set_page_free bm p) q = (!(q == p) && is_page_used bm q) := by
  rw [is_page_used_eq_testBit, is_page_used_eq_testBit]
  unfold set_page_free
  by_cases hb : q / 8 = p / 8
  · rw [if_pos hb, Nat.shiftLeft_eq, one_mul, Nat.testBit_land, Nat.testBit_xor,
      Nat.testBit_two_pow_sub_one, Nat.testBit_two_pow]
    have h8 : decide (q % 8 < 8) = true := decide_eq_true (Nat.mod_lt _ (by omega))
    by_cases hm : q % 8 = p % 8
    · have hqp : q = p := eq_of_div_mod_eq hb hm
      subst hqp
      simp [h8]
    · have hqp : (q == p) = false := beq_eq_false_iff_ne.mpr (fun h => hm (by rw [h]))
      have hpm : decide (p % 8 = q % 8) = false := decide_eq_false (fun h => hm h.symm)
      rw [hqp, hpm, h8]
      simp
  · rw [if_neg hb]
    have hqp : (q == p) = false := beq_eq_false_iff_ne.mpr (fun h => hb (by rw [h]))
    rw [hqp]
    simp

/-! ## Used-page counting lemmas -/

theorem used_count_bm_le (bm : Nat → Nat) : used_count_bm bm ≤ TOTAL_PAGES := by
  unfold used_count_bm
  calc ((Finset.range TOTAL_PAGES).filter _).card
      ≤ (Finset.range TOTAL_PAGES).card := Finset.card_filter_le _ _
    _ = TOTAL_PAGES := Finset.card_range _

theorem used_count_bm_set_used (bm : Nat → Nat) (i : Nat) (hi : i < TOTAL_PAGES)
    (h : is_page_used bm i = false) :
    used_count_bm (set_page_used bm i) = used_count_bm bm + 1 := by
  unfold used_count_bm
  have hset : (Finset.range TOTAL_PAGES).filter
        (fun q => is_page_used (set_page_used bm i) q = true)
      = insert i ((Finset.range TOTAL_PAGES).filter (fun q => is_page_used bm q = true)) := by
    ext q
    by_cases hq : q = i <;>
      simp [hq, hi, is_page_used_set_used, Finset.mem_filter, Finset.mem_insert]
  rw [hset, Finset.card_insert_of_not_mem]
  simp [Finset.mem_filter, h]

theorem used_count_bm_set_free (bm : Nat → Nat) (i : Nat) (hi : i < TOTAL_PAGES)
    (h : is_page_used bm i = true) :
    used_count_bm (set_page_free bm i) + 1 = used_count_bm bm := by
  unfold used_count_bm
  have hset : (Finset.range TOTAL_PAGES).filter
        (fun q => is_page_used (set_page_free bm i) q = true)
      = ((Finset.range TOTAL_PAGES).filter (fun q => is_page_used bm q = true)).erase i := by
    ext q
    by_cases hq : q = i <;>
      simp [hq, is_page_used_set_free, Finset.mem_filter, Finset.mem_erase]
  rw [hset, Finset.card_erase_add_one]
  simp [Finset.mem_filter, h, hi]

theorem used_count_bm_lt_of_free (bm : Nat → Nat) (i : Nat) (hi : i < TOTAL_PAGES)
    (h : is_page_used bm i = false) :
    used_count_bm bm < TOTAL_PAGES := by
  unfold used_count_bm
  have hss : (Finset.range TOTAL_PAGES).filter (fun q => is_page_used bm q = true)
      ⊂ Finset.range TOTAL_PAGES := by
    refine Finset.ssubset_iff_of_subset (Finset.filter_subset _ _) |>.mpr ?_
    exact ⟨i, Finset.mem_range.mpr hi, by simp [Finset.mem_filter, h]⟩
  calc ((Finset.range TOTAL_PAGES).filter _).card
      < (Finset.range TOTAL_PAGES).card := Finset.card_lt_card hss
    _ = TOTAL_PAGES := Finset.card_range _

/-! ## Scan-loop lemmas -/

theorem find_free_loop_eq_some (bm : Nat → Nat) :
    ∀ rem i j, i ≤ j → j < i + rem → is_page_used bm j = false →
      (∀ m, i ≤ m → m < j → is_page_used bm m = true) →
      find_free_loop bm i rem = some j := by
  intro rem
  induction rem with
  | zero => intro i j h1 h2 _ _; omega
  | succ rem ih =>
      intro i j h1 h2 hfree hbusy
      unfold find_free_loop
      rcases Nat.eq_or_lt_of_le h1 with heq | hlt
      · subst heq; rw [hfree]; simp
      · rw [hbusy i (Nat.le_refl i) hlt]
        simpa using ih (i + 1) j hlt (by omega) hfree
          (fun m hm1 hm2 => hbusy m (by omega) hm2)

theorem find_free_loop_eq_none (bm : Nat → Nat) :
    ∀ rem i, (∀ m, i ≤ m → m < i + rem → is_page_used bm m = true) →
      find_free_loop bm i rem = none := by
  intro rem
  induction rem with
  | zero => intro i _; rfl
  | succ rem ih =>
      intro i hbusy
      unfold find_free_loop
      rw [hbusy i (Nat.le_refl i) (by omega)]
      simpa using ih (i + 1) (fun m hm1 hm2 => hbusy m (by omega) (by omega))

theorem find_free_loop_sound (bm : Nat → Nat) :
    ∀ rem i j, find_free_loop bm i rem = some j →
      i ≤ j ∧ j < i + rem ∧ is_page_used bm j = false ∧
        ∀ m, i ≤ m → m < j → is_page_used bm m = true := by
  intro rem
  induction rem with
  | zero => intro i j h; exact absurd h (by simp [find_free_loop])
  | succ rem ih =>
      intro i j h
      unfold find_free_loop at h
      cases hu : is_page_used bm i with
      | false =>
          rw [hu] at h; simp at h
          subst h
          exact ⟨Nat.le_refl _, by omega, hu, fun m hm1 hm2 => absurd hm2 (by omega)⟩
      | true =>
          rw [hu] at h; simp at h
          obtain ⟨h1, h2, h3, h4⟩ := ih (i + 1) j h
          refine ⟨by omega, by omega, h3, fun m hm1 hm2 => ?_⟩
          rcases Nat.eq_or_lt_of_le hm1 with heq | hlt
          · subst heq; exact hu
          · exact h4 m hlt hm2

/-! ## Address arithmetic -/

theorem U64_eq : U64 = 18446744073709551616 := by norm_num [U64]

theorem page_index_of_page_addr (i : Nat) (hi : i < TOTAL_PAGES) :
    page_index_of (base_address + i * PAGE_SIZE) = i := by
  unfold page_index_of
  have hU := U64_eq
  have h1 : base_address + i * PAGE_SIZE + (U64 - base_address) = i * PAGE_SIZE + U64 := by
    unfold base_address PAGE_SIZE at *
    omega
  rw [h1, Nat.add_mod_right, Nat.mod_eq_of_lt, Nat.mul_div_cancel]
  · unfold PAGE_SIZE; omega
  · unfold TOTAL_PAGES at hi
    unfold PAGE_SIZE
    omega

/-- Helper: an out-of-range index makes `kfree_page` the identity. -/
theorem kfree_page_noop (addr : Nat) (st : MemState)
    (h : ¬ page_index_of addr < TOTAL_PAGES) : kfree_page addr st = st := by
  unfold kfree_page
  rw [if_neg h]

/-! ## Counter invariant -/

def counterInv (st : MemState) : Prop :=
  get_free_pages st + used_page_count st = TOTAL_PAGES

theorem used_count_bm_all_free (bm : Nat → Nat)
    (h : ∀ q, q < TOTAL_PAGES → is_page_used bm q = false) : used_count_bm bm = 0 := by
  unfold used_count_bm
  rw [Finset.card_eq_zero, Finset.filter_eq_empty_iff]
  intro q hq
  simp [h q (Finset.mem_range.mp hq)]

theorem counterInv_initState (m0 : Nat → Nat) : counterInv (initState m0) := by
  unfold counterInv initState get_free_pages used_page_count
  have h : used_count_bm (fun _ => 0) = 0 :=
    used_count_bm_all_free _ (fun q _ => by simp [is_page_used, Nat.zero_and])
  simp [h]

theorem kalloc_page_eq_some (st : MemState) (i : Nat)
    (hf : find_free_loop st.page_bitmap 0 TOTAL_PAGES = some i) :
    kalloc_page st = (some (base_address + i * PAGE_SIZE),
      { page_bitmap := set_page_used st.page_bitmap i
        free_pages := (st.free_pages + (U64 - 1)) % U64
        mem := zero_page st.mem (base_address + i * PAGE_SIZE) }) := by
  unfold kalloc_page
  rw [hf]

theorem kalloc_page_eq_none (st : MemState)
    (hf : find_free_loop st.page_bitmap 0 TOTAL_PAGES = none) :
    kalloc_page st = (none, st) := by
  unfold kalloc_page
  rw [hf]

theorem counterInv_kalloc (st : MemState) (h : counterInv st) :
    counterInv (kalloc_page st).2 := by
  unfold counterInv get_free_pages used_page_count at *
  have hT : TOTAL_PAGES = 4096 := rfl
  cases hf : find_free_loop st.page_bitmap 0 TOTAL_PAGES with
  | none => rw [kalloc_page_eq_none st hf]; exact h
  | some i =>
      obtain ⟨_, hlt, hfree, _⟩ := find_free_loop_sound st.page_bitmap TOTAL_PAGES 0 i hf
      have hi : i < TOTAL_PAGES := by omega
      have hused_lt : used_count_bm st.page_bitmap < TOTAL_PAGES :=
        used_count_bm_lt_of_free st.page_bitmap i hi hfree
      have hU := U64_eq
      have hstep : (st.free_pages + (U64 - 1)) % U64 = st.free_pages - 1 := by
        have h1 : 1 ≤ st.free_pages := by omega
        have h2 : st.free_pages + (U64 - 1) = (st.free_pages - 1) + U64 := by omega
        rw [h2, Nat.add_mod_right, Nat.mod_eq_of_lt (by omega)]
      rw [kalloc_page_eq_some st i hf]
      show (st.free_pages + (U64 - 1)) % U64 + used_count_bm (set_page_used st.page_bitmap i)
        = TOTAL_PAGES
      rw [hstep, used_count_bm_set_used st.page_bitmap i hi hfree]
      omega

theorem kfree_page_eq_in_range (addr : Nat) (st : MemState)
    (h : page_index_of addr < TOTAL_PAGES) :
    kfree_page addr st =
      { page_bitmap := set_page_free st.page_bitmap (page_index_of addr)
        free_pages := (st.free_pages + 1) % U64
        mem := st.mem } := by
  unfold kfree_page
  rw [if_pos h]

theorem counterInv_kfree (st : MemState) (addr : Nat) (h : counterInv st)
    (hok : okFree st addr = true) : counterInv (kfree_page addr st) := by
  by_cases hr : page_index_of addr < TOTAL_PAGES
  · unfold okFree at hok
    rw [Bool.or_eq_true, Bool.not_eq_true', decide_eq_false_iff_not] at hok
    have hused : is_page_used st.page_bitmap (page_index_of addr) = true := by
      rcases hok with hok | hok
      · exact absurd hr hok
      · exact hok
    rw [kfree_page_eq_in_range addr st hr]
    unfold counterInv get_free_pages used_page_count at h ⊢
    have hcount := used_count_bm_set_free st.page_bitmap (page_index_of addr) hr hused
    have hU := U64_eq
    have hT : TOTAL_PAGES = 4096 := rfl
    have hle := used_count_bm_le st.page_bitmap
    have hstep : (st.free_pages + 1) % U64 = st.free_pages + 1 :=
      Nat.mod_eq_of_lt (by omega)
    show (st.free_pages + 1) % U64
        + used_count_bm (set_page_free st.page_bitmap (page_index_of addr)) = TOTAL_PAGES
    rw [hstep]
    omega
  · rw [kfree_page_noop addr st hr]
    exact h

theorem counterInv_runOps :
    ∀ (ops : List AllocOp) (st : MemState), counterInv st → okRun st ops = true →
      counterInv (runOps st ops) := by
  intro ops
  induction ops with
  | nil => intro st h _; exact h
  | cons op rest ih =>
      intro st h hok
      cases op with
      | alloc =>
          unfold okRun at hok
          exact ih (kalloc_page st).2 (counterInv_kalloc st h) hok
      | free a =>
          unfold okRun at hok
          rw [Bool.and_eq_true] at hok
          exact ih (kfree_page a st) (counterInv_kfree st a h hok.1) hok.2

/-! ## Claim C2: free counter invariant -/

/-- Claim C2, counterexample: calling `kfree_page` on the page at
`base_address` in the freshly initialized state (where that page is
already `Free`) increments the counter without any bitmap transition,
so `get_free_pages + used_page_count = TOTAL_PAGES` fails after this
one-call sequence of allocate/free calls. -/
theorem counter_invariant_fails_after_free_of_free_page :
    ¬ (get_free_pages (kfree_page base_address (initState (fun _ => 0)))
        + used_page_count (kfree_page base_address (initState (fun _ => 0)))
        = TOTAL_PAGES) := by
  intro hcl
  have key : get_free_pages (kfree_page base_address (initState (fun _ => 0))) = 4097 := by
    decide
  have hz : used_page_count (kfree_page base_address (initState (fun _ => 0))) = 0 := by
    unfold used_page_count
    apply used_count_bm_all_free
    intro q hq
    have hr : page_index_of base_address < TOTAL_PAGES := by decide
    rw [kfree_page_eq_in_range base_address (initState (fun _ => 0)) hr]
    show is_page_used (set_page_free (initState (fun _ => 0)).page_bitmap
      (page_index_of base_address)) q = false
    rw [is_page_used_set_free]
    simp [initState, is_page_used, Nat.zero_and]
  rw [key, hz] at hcl
  exact absurd hcl (by decide)

/-- Claim C2 (amended): after every finite sequence of allocate and
free calls starting from the initialized allocator state in which
every free call targets an out-of-range address or a page currently
marked `Used`, `get_free_pages` plus the number of pages marked `Used`
in the bitmap equals `TOTAL_PAGES`. -/
theorem free_counter_invariant_ok_runs (m0 : Nat → Nat) (ops : List AllocOp)
    (h : okRun (initState m0) ops = true) :
    get_free_pages (runOps (initState m0) ops)
      + used_page_count (runOps (initState m0) ops) = TOTAL_PAGES :=
  counterInv_runOps ops (initState m0) (counterInv_initState m0) h

theorem free_counter_invariant_ok_runs_witness :
    okRun (initState (fun _ => 0))
        [AllocOp.alloc, AllocOp.free base_address, AllocOp.alloc] = true
      ∧ get_free_pages (runOps (initState (fun _ => 0))
            [AllocOp.alloc, AllocOp.free base_address, AllocOp.alloc])
          + used_page_count (runOps (initState (fun _ => 0))
            [AllocOp.alloc, AllocOp.free base_address, AllocOp.alloc]) = TOTAL_PAGES :=
  ⟨by decide, free_counter_invariant_ok_runs (fun _ => 0) _ (by decide)⟩

/-! ## Claim C5: out-of-range free is a silent no-op -/

/-- Claim C5: for every address whose computed index
`(addr - base_address) / PAGE_SIZE` is not in `0..TOTAL_PAGES-1`,
`kfree_page` leaves the whole state (in particular the bitmap and the
free page counter) unchanged, and signals nothing. -/
theorem kfree_page_out_of_range_silent (addr : Nat) (st : MemState)
    (h : ¬ page_index_of addr < TOTAL_PAGES) :
    kfree_page addr st = st
      ∧ (kfree_page addr st).page_bitmap = st.page_bitmap
      ∧ get_free_pages (kfree_page addr st) = get_free_pages st := by
  have he := kfree_page_noop addr st h
  exact ⟨he, by rw [he], by rw [he]⟩

theorem kfree_page_out_of_range_silent_witness :
    ¬ page_index_of (base_address + TOTAL_PAGES * PAGE_SIZE) < TOTAL_PAGES
      ∧ (kfree_page (base_address + TOTAL_PAGES * PAGE_SIZE) (initState (fun _ => 0))
            = initState (fun _ => 0)
        ∧ (kfree_page (base_address + TOTAL_PAGES * PAGE_SIZE)
              (initState (fun _ => 0))).page_bitmap = (initState (fun _ => 0)).page_bitmap
        ∧ get_free_pages (kfree_page (base_address + TOTAL_PAGES * PAGE_SIZE)
              (initState (fun _ => 0))) = get_free_pages (initState (fun _ => 0))) :=
  ⟨by decide, kfree_page_out_of_range_silent _ _ (by decide)⟩

/-! ## Claim C10: addresses below the base wrap out of range -/

/-- Claim C10: for every address strictly below `base_address`, the
`uint64` index computation wraps to a quotient of at least
`2 ^ 52 - 2 ^ 9`, which fails the `page < TOTAL_PAGES` check, so
`kfree_page` leaves the allocator state unchanged. -/
theorem kfree_page_below_base (addr : Nat) (st : MemState) (h : addr < base_address) :
    2 ^ 52 - 2 ^ 9 ≤ page_index_of addr
      ∧ ¬ page_index_of addr < TOTAL_PAGES
      ∧ kfree_page addr st = st := by
  have hb : base_address = 2097152 := rfl
  have hU := U64_eq
  have h1 : addr + (U64 - base_address) < U64 := by omega
  have hge : 2 ^ 52 - 2 ^ 9 ≤ page_index_of addr := by
    unfold page_index_of
    rw [Nat.mod_eq_of_lt h1]
    have h2 : U64 - base_address ≤ addr + (U64 - base_address) := Nat.le_add_left _ _
    have h3 : (U64 - base_address) / PAGE_SIZE = 2 ^ 52 - 2 ^ 9 := by decide
    calc 2 ^ 52 - 2 ^ 9 = (U64 - base_address) / PAGE_SIZE := h3.symm
      _ ≤ (addr + (U64 - base_address)) / PAGE_SIZE := Nat.div_le_div_right h2
  have hnr : ¬ page_index_of addr < TOTAL_PAGES := by
    have hT : TOTAL_PAGES = 4096 := rfl
    have h52 : (2:Nat) ^ 52 = 4503599627370496 := by norm_num
    have h9 : (2:Nat) ^ 9 = 512 := by norm_num
    omega
  exact ⟨hge, hnr, kfree_page_noop addr st hnr⟩

theorem kfree_page_below_base_witness :
    0 < base_address
      ∧ (2 ^ 52 - 2 ^ 9 ≤ page_index_of 0
        ∧ ¬ page_index_of 0 < TOTAL_PAGES
        ∧ kfree_page 0 (initState (fun _ => 0)) = initState (fun _ => 0)) :=
  ⟨by decide, kfree_page_below_base 0 (initState (fun _ => 0)) (by decide)⟩

/-! ## Claim C3: allocation exhaustion -/

theorem find_free_of_prefix (bm : Nat → Nat) (k : Nat)
    (h : ∀ q, is_page_used bm q = decide (q < k)) (hk : k < TOTAL_PAGES) :
    find_free_loop bm 0 TOTAL_PAGES = some k := by
  apply find_free_loop_eq_some bm TOTAL_PAGES 0 k (Nat.zero_le k) (by omega)
  · rw [h k]
    simp
  · intro m _ hm
    rw [h m]
    simpa using hm

theorem kallocN_from_prefix :
    ∀ (n k : Nat) (st : MemState),
      (∀ q, is_page_used st.page_bitmap q = decide (q < k)) → k + n ≤ TOTAL_PAGES →
      (kallocN n st).1
          = (List.range n).map (fun t => some (base_address + (k + t) * PAGE_SIZE))
        ∧ ∀ q, is_page_used (kallocN n st).2.page_bitmap q = decide (q < k + n) := by
  intro n
  induction n with
  | zero =>
      intro k st h _
      exact ⟨rfl, by simpa using h⟩
  | succ n ih =>
      intro k st h hle
      have hk : k < TOTAL_PAGES := by omega
      have hf := find_free_of_prefix st.page_bitmap k h hk
      have he := kalloc_page_eq_some st k hf
      have hstep : ∀ q, is_page_used (kalloc_page st).2.page_bitmap q = decide (q < k + 1) := by
        intro q
        rw [he]
        show is_page_used (set_page_used st.page_bitmap k) q = decide (q < k + 1)
        rw [is_page_used_set_used, h q]
        by_cases hq : q = k
        · simp [hq]
        · have hb : (q == k) = false := beq_eq_false_iff_ne.mpr hq
          rw [hb]
          simp only [Bool.false_or]
          by_cases hlt : q < k
          · have h1 : q < k + 1 := by omega
            simp [hlt, h1]
          · have h1 : ¬ q < k + 1 := by omega
            simp [hlt, h1]
      obtain ⟨hres, hbm⟩ := ih (k + 1) (kalloc_page st).2 hstep (by omega)
      have hsucc : kallocN (n + 1) st
          = ((kalloc_page st).1 :: (kallocN n (kalloc_page st).2).1,
             (kallocN n (kalloc_page st).2).2) := rfl
      rw [hsucc]
      constructor
      · show (kalloc_page st).1 :: (kallocN n (kalloc_page st).2).1 = _
        rw [hres, he, List.range_succ_eq_map, List.map_cons, List.map_map]
        show some (base_address + k * PAGE_SIZE) :: _
          = some (base_address + (k + 0) * PAGE_SIZE) :: _
        rw [Nat.add_zero]
        refine congrArg (List.cons (some (base_address + k * PAGE_SIZE))) ?_
        apply List.map_congr_left
        intro t _
        show some (base_address + (k + 1 + t) * PAGE_SIZE)
          = some (base_address + (k + (t + 1)) * PAGE_SIZE)
        rw [show k + 1 + t = k + (t + 1) from by omega]
      · intro q
        show is_page_used (kallocN n (kalloc_page st).2).2.page_bitmap q = _
        rw [hbm q, show k + 1 + n = k + (n + 1) from by omega]

/-- Claim C3: starting from the initialized state (all `TOTAL_PAGES`
pages free), the first `TOTAL_PAGES` calls to `kalloc_page` all
succeed and return the pairwise distinct, non-overlapping page
addresses `base_address + i * PAGE_SIZE` for `i = 0 .. TOTAL_PAGES-1`
in order, and the `(TOTAL_PAGES+1)`-th call returns `none` (NULL). -/
theorem kalloc_page_exhaustion (m0 : Nat → Nat) :
    (kallocN TOTAL_PAGES (initState m0)).1
        = (List.range TOTAL_PAGES).map (fun i => some (base_address + i * PAGE_SIZE))
      ∧ ((List.range TOTAL_PAGES).map (fun i => base_address + i * PAGE_SIZE)).Nodup
      ∧ List.Pairwise (fun a b => a + PAGE_SIZE ≤ b)
          ((List.range TOTAL_PAGES).map (fun i => base_address + i * PAGE_SIZE))
      ∧ (kalloc_page (kallocN TOTAL_PAGES (initState m0)).2).1 = none := by
  have hinit : ∀ q, is_page_used (initState m0).page_bitmap q = decide (q < 0) := by
    intro q
    simp [initState, is_page_used, Nat.zero_and]
  obtain ⟨hres, hbm⟩ := kallocN_from_prefix TOTAL_PAGES 0 (initState m0) hinit (by omega)
  have hP : PAGE_SIZE = 4096 := rfl
  refine ⟨?_, ?_, ?_, ?_⟩
  · rw [hres]
    apply List.map_congr_left
    intro t _
    rw [Nat.zero_add]
  · exact List.Nodup.map (fun a b hab => by rw [hP] at hab; omega)
      (List.nodup_range TOTAL_PAGES)
  · exact List.Pairwise.map _ (fun a b hab => by rw [hP]; omega)
      (List.pairwise_lt_range TOTAL_PAGES)
  · have hnone : find_free_loop (kallocN TOTAL_PAGES (initState m0)).2.page_bitmap
        0 TOTAL_PAGES = none := by
      apply find_free_loop_eq_none
      intro m _ hm
      rw [hbm m]
      simpa using hm
    rw [kalloc_page_eq_none _ hnone]

/-! ## Claim C4: zero on allocate -/

/-- Claim C4: whenever `kalloc_page` succeeds, every byte of the
4096-byte page at the returned address reads as zero in the
post-state, regardless of the memory's prior content. -/
theorem kalloc_page_zeroed (st : MemState) (addr : Nat)
    (h : (kalloc_page st).1 = some addr) :
    ∀ off, off < PAGE_SIZE → (kalloc_page st).2.mem (addr + off) = 0 := by
  cases hf : find_free_loop st.page_bitmap 0 TOTAL_PAGES with
  | none =>
      rw [kalloc_page_eq_none st hf] at h
      exact absurd h (by simp)
  | some i =>
      rw [kalloc_page_eq_some st i hf] at h
      have ha : base_address + i * PAGE_SIZE = addr := by simpa using h
      intro off hoff
      rw [kalloc_page_eq_some st i hf]
      show zero_page st.mem (base_address + i * PAGE_SIZE) (addr + off) = 0
      unfold zero_page
      rw [if_pos]
      omega

theorem kalloc_page_zeroed_witness :
    (kalloc_page (initState (fun _ => 37))).1 = some 2097152
      ∧ (kalloc_page (initState (fun _ => 37))).2.mem (2097152 + 1234) = 0 :=
  ⟨by decide, kalloc_page_zeroed (initState (fun _ => 37)) 2097152 (by decide) 1234 (by decide)⟩

/-! ## Claim C6: free/reuse determinism over a single hole -/

theorem find_free_single_hole (bm : Nat → Nat) (i : Nat) (hi : i < TOTAL_PAGES)
    (h : ∀ j, j < TOTAL_PAGES → is_page_used bm j = decide (j ≠ i)) :
    find_free_loop bm 0 TOTAL_PAGES = some i := by
  apply find_free_loop_eq_some bm TOTAL_PAGES 0 i (Nat.zero_le i) (by omega)
  · rw [h i hi]
    simp
  · intro m _ hm
    rw [h m (by omega)]
    simp
    omega

/-- Claim C6: in a state whose bitmap has exactly one `Free` page, at
index `i`, freeing page `i` (a no-op on the bitmap) and allocating
once — or allocating directly — returns exactly
`base_address + i * PAGE_SIZE`; and freeing page `i` out of a
fully-allocated state makes the next allocation reproduce page `i`'s
address. -/
theorem single_hole_realloc (st stF : MemState) (i : Nat) (hi : i < TOTAL_PAGES) :
    ((∀ j, j < TOTAL_PAGES → is_page_used st.page_bitmap j = decide (j ≠ i)) →
        (kalloc_page st).1 = some (base_address + i * PAGE_SIZE)
          ∧ (kalloc_page (kfree_page (base_address + i * PAGE_SIZE) st)).1
              = some (base_address + i * PAGE_SIZE))
      ∧ ((∀ j, j < TOTAL_PAGES → is_page_used stF.page_bitmap j = true) →
          (kalloc_page (kfree_page (base_address + i * PAGE_SIZE) stF)).1
            = some (base_address + i * PAGE_SIZE)) := by
  have hpi := page_index_of_page_addr i hi
  have hr : page_index_of (base_address + i * PAGE_SIZE) < TOTAL_PAGES := by
    rw [hpi]; exact hi
  constructor
  · intro h
    constructor
    · rw [kalloc_page_eq_some st i (find_free_single_hole st.page_bitmap i hi h)]
    · rw [kfree_page_eq_in_range _ st hr, hpi]
      have h' : ∀ j, j < TOTAL_PAGES →
          is_page_used (set_page_free st.page_bitmap i) j = decide (j ≠ i) := by
        intro j hj
        rw [is_page_used_set_free, h j hj]
        by_cases hji : j = i
        · simp [hji]
        · simp [hji]
      exact congrArg Prod.fst (kalloc_page_eq_some _ i (find_free_single_hole _ i hi h'))
  · intro h
    rw [kfree_page_eq_in_range _ stF hr, hpi]
    have h' : ∀ j, j < TOTAL_PAGES →
        is_page_used (set_page_free stF.page_bitmap i) j = decide (j ≠ i) := by
      intro j hj
      rw [is_page_used_set_free, h j hj]
      by_cases hji : j = i
      · simp [hji]
      · simp [hji]
    exact congrArg Prod.fst (kalloc_page_eq_some _ i (find_free_single_hole _ i hi h'))

/-- In the all-ones bitmap every page in range is marked used. -/
theorem is_page_used_all_ones (j : Nat) : is_page_used (fun _ => 255) j = true := by
  rw [is_page_used_eq_testBit]
  show (255 : Nat).testBit (j % 8) = true
  have h8 : j % 8 < 8 := Nat.mod_lt _ (by omega)
  rw [show (255 : Nat) = 2 ^ 8 - 1 from by norm_num, Nat.testBit_two_pow_sub_one]
  simpa using h8

/-- Clearing bit 5 of the all-ones bitmap leaves a single hole at
page 5. -/
theorem single_hole_bitmap_five (j : Nat) (_hj : j < TOTAL_PAGES) :
    is_page_used (set_page_free (fun _ => 255) 5) j = decide (j ≠ 5) := by
  rw [is_page_used_set_free, is_page_used_all_ones]
  by_cases hj5 : j = 5
  · simp [hj5]
  · simp [hj5]

theorem single_hole_realloc_witness :
    (kalloc_page
        { page_bitmap := set_page_free (fun _ => 255) 5
          free_pages := 1, mem := fun _ => 0 }).1 = some (base_address + 5 * PAGE_SIZE)
      ∧ (kalloc_page (kfree_page (base_address + 5 * PAGE_SIZE)
          { page_bitmap := fun _ => 255
            free_pages := 0, mem := fun _ => 0 })).1 = some (base_address + 5 * PAGE_SIZE) :=
  ⟨((single_hole_realloc
      { page_bitmap := set_page_free (fun _ => 255) 5
        free_pages := 1, mem := fun _ => 0 }
      { page_bitmap := fun _ => 255, free_pages := 0, mem := fun _ => 0 }
      5 (by decide)).1 (fun j hj => single_hole_bitmap_five j hj)).1,
   (single_hole_realloc
      { page_bitmap := set_page_free (fun _ => 255) 5
        free_pages := 1, mem := fun _ => 0 }
      { page_bitmap := fun _ => 255, free_pages := 0, mem := fun _ => 0 }
      5 (by decide)).2 (fun j _ => is_page_used_all_ones j)⟩

/-! ## Claim C7: determinism and first-fit -/

/-- Claim C7: the allocator is deterministic — identical call
sequences from the initialized state yield identical address
sequences — and every successful allocation returns the
lowest-indexed `Free` page (first-fit over index order). -/
theorem kalloc_deterministic_first_fit (ops1 ops2 : List AllocOp) (m0 : Nat → Nat)
    (st : MemState) (a : Nat) (hops : ops1 = ops2) :
    allocAddrs (initState m0) ops1 = allocAddrs (initState m0) ops2
      ∧ ((kalloc_page st).1 = some a →
          ∃ i, i < TOTAL_PAGES ∧ a = base_address + i * PAGE_SIZE
            ∧ is_page_used st.page_bitmap i = false
            ∧ ∀ j, j < i → is_page_used st.page_bitmap j = true) := by
  subst hops
  refine ⟨rfl, ?_⟩
  intro h
  cases hf : find_free_loop st.page_bitmap 0 TOTAL_PAGES with
  | none =>
      rw [kalloc_page_eq_none st hf] at h
      exact absurd h (by simp)
  | some i =>
      rw [kalloc_page_eq_some st i hf] at h
      obtain ⟨_, hlt, hfree, hbusy⟩ := find_free_loop_sound st.page_bitmap TOTAL_PAGES 0 i hf
      have ha : base_address + i * PAGE_SIZE = a := by simpa using h
      exact ⟨i, by omega, ha.symm, hfree, fun j hj => hbusy j (Nat.zero_le j) hj⟩

theorem kalloc_deterministic_first_fit_witness :
    allocAddrs (initState (fun _ => 0)) [AllocOp.alloc]
        = allocAddrs (initState (fun _ => 0)) [AllocOp.alloc]
      ∧ ∃ i, i < TOTAL_PAGES ∧ 2097152 = base_address + i * PAGE_SIZE
          ∧ is_page_used (initState (fun _ => 0)).page_bitmap i = false
          ∧ ∀ j, j < i → is_page_used (initState (fun _ => 0)).page_bitmap j = true :=
  have h := kalloc_deterministic_first_fit [AllocOp.alloc] [AllocOp.alloc] (fun _ => 0)
    (initState (fun _ => 0)) 2097152 rfl
  ⟨h.1, h.2 (by decide)⟩

/-! ## Scheduler trace lemmas -/

theorem initSeq_append (l1 l2 : List KEvent) :
    initSeq (l1 ++ l2) = initSeq l1 ++ initSeq l2 := by
  simp [initSeq]

theorem tickSeq_append (l1 l2 : List KEvent) :
    tickSeq (l1 ++ l2) = tickSeq l1 ++ tickSeq l2 := by
  simp [tickSeq]

theorem initSeq_comp_init_events :
    ∀ (tbl : List (Option Component)) (i : Nat),
      (∀ c? ∈ tbl, isNamedComp c? = true) →
      initSeq (comp_init_events i tbl) = inits_expected i tbl := by
  intro tbl
  induction tbl with
  | nil => intro i _; rfl
  | cons c? rest ih =>
      intro i h
      have hc : isNamedComp c? = true := h c? (List.mem_cons_self c? rest)
      have hrest : ∀ x ∈ rest, isNamedComp x = true :=
        fun x hx => h x (List.mem_cons_of_mem c? hx)
      cases c? with
      | none => exact absurd hc (by simp [isNamedComp])
      | some c =>
          cases hn : c.name with
          | none => rw [isNamedComp, hn] at hc; exact absurd hc (by simp)
          | some nm =>
              cases hi : c.init with
              | none =>
                  simp only [comp_init_events, inits_expected, hn, hi, initSeq_append]
                  rw [ih (i + 1) hrest]
                  rfl
              | some f =>
                  simp only [comp_init_events, inits_expected, hn, hi, initSeq_append]
                  rw [ih (i + 1) hrest]
                  rfl

theorem tickSeq_comp_tick_events :
    ∀ (tbl : List (Option Component)) (i : Nat),
      tickSeq (comp_tick_events i tbl) = ticks_expected i tbl := by
  intro tbl
  induction tbl with
  | nil => intro i; rfl
  | cons c? rest ih =>
      intro i
      cases c? with
      | none =>
          simp only [comp_tick_events, ticks_expected]
          rw [List.nil_append, List.nil_append]
          exact ih (i + 1)
      | some c =>
          cases ht : c.tick with
          | none =>
              simp only [comp_tick_events, ticks_expected, ht]
              rw [List.nil_append, List.nil_append]
              exact ih (i + 1)
          | some f =>
              simp only [comp_tick_events, ticks_expected, ht, tickSeq_append]
              rw [ih (i + 1)]
              rfl

theorem tickSeq_comp_init_events :
    ∀ (tbl : List (Option Component)) (i : Nat),
      tickSeq (comp_init_events i tbl) = [] := by
  intro tbl
  induction tbl with
  | nil => intro i; rfl
  | cons c? rest ih =>
      intro i
      cases c? with
      | none =>
          simp only [comp_init_events]
          rw [List.nil_append]
          exact ih (i + 1)
      | some c =>
          cases hn : c.name with
          | none =>
              simp only [comp_init_events, hn]
              rw [List.nil_append]
              exact ih (i + 1)
          | some nm =>
              cases hi : c.init with
              | none =>
                  simp only [comp_init_events, hn, hi, tickSeq_append]
                  rw [ih (i + 1)]
                  rfl
              | some f =>
                  simp only [comp_init_events, hn, hi, tickSeq_append]
                  rw [ih (i + 1)]
                  rfl

theorem initSeq_comp_tick_events :
    ∀ (tbl : List (Option Component)) (i : Nat),
      initSeq (comp_tick_events i tbl) = [] := by
  intro tbl
  induction tbl with
  | nil => intro i; rfl
  | cons c? rest ih =>
      intro i
      cases c? with
      | none =>
          simp only [comp_tick_events]
          rw [List.nil_append]
          exact ih (i + 1)
      | some c =>
          cases ht : c.tick with
          | none =>
              simp only [comp_tick_events, ht]
              rw [List.nil_append]
              exact ih (i + 1)
          | some f =>
              simp only [comp_tick_events, ht, initSeq_append]
              rw [ih (i + 1)]
              rfl

theorem inits_expected_ge :
    ∀ (tbl : List (Option Component)) (i x : Nat), x ∈ inits_expected i tbl → i ≤ x := by
  intro tbl
  induction tbl with
  | nil => intro i x hx; exact absurd hx (List.not_mem_nil x)
  | cons c? rest ih =>
      intro i x hx
      cases c? with
      | none =>
          simp only [inits_expected] at hx
          rw [List.nil_append] at hx
          exact Nat.le_of_succ_le (ih (i + 1) x hx)
      | some c =>
          cases hi : c.init with
          | none =>
              simp only [inits_expected, hi] at hx
              rw [List.nil_append] at hx
              exact Nat.le_of_succ_le (ih (i + 1) x hx)
          | some f =>
              simp only [inits_expected, hi, List.cons_append, List.nil_append,
                List.mem_cons] at hx
              rcases hx with hx | hx
              · omega
              · exact Nat.le_of_succ_le (ih (i + 1) x hx)

theorem inits_expected_pairwise :
    ∀ (tbl : List (Option Component)) (i : Nat),
      List.Pairwise (· < ·) (inits_expected i tbl) := by
  intro tbl
  induction tbl with
  | nil => intro i; exact List.Pairwise.nil
  | cons c? rest ih =>
      intro i
      cases c? with
      | none =>
          simp only [inits_expected]
          rw [List.nil_append]
          exact ih (i + 1)
      | some c =>
          cases hi : c.init with
          | none =>
              simp only [inits_expected, hi]
              rw [List.nil_append]
              exact ih (i + 1)
          | some f =>
              simp only [inits_expected, hi, List.cons_append, List.nil_append]
              exact List.Pairwise.cons
                (fun x hx => Nat.lt_of_succ_le (inits_expected_ge rest (i + 1) x hx))
                (ih (i + 1))

theorem initSeq_kernel_passes (tbl : List (Option Component)) :
    ∀ n, initSeq (kernel_passes tbl n) = [] := by
  intro n
  induction n with
  | zero => rfl
  | succ n ih =>
      simp only [kernel_passes, initSeq_append, ih, kernel_tick_pass]
      rw [initSeq_comp_tick_events]
      rfl

theorem tickSeq_kernel_passes (tbl : List (Option Component)) :
    ∀ n, tickSeq (kernel_passes tbl n)
      = List.flatten (List.replicate n (ticks_expected 0 tbl)) := by
  intro n
  induction n with
  | zero => rfl
  | succ n ih =>
      simp only [kernel_passes, tickSeq_append, ih, kernel_tick_pass, List.replicate_succ,
        List.flatten_cons]
      rw [tickSeq_comp_tick_events]

/-! ## Claim C1: registration order -/

/-- Claim C1: for every component table whose entries are all non-null
and named, the init phase calls each present `init` exactly once, in
table order (absent inits skipped without breaking the sequence), all
init events precede all tick events in the kernel trace, and each of
the `n` scheduler passes calls the present tick handlers in that same
table order, for every `n`. -/
theorem registration_order (tbl : List (Option Component)) (n : Nat)
    (h : ∀ c? ∈ tbl, isNamedComp c? = true) :
    kernel_trace tbl n = register_components_and_init tbl ++ kernel_passes tbl n
      ∧ initSeq (register_components_and_init tbl) = inits_expected 0 tbl
      ∧ List.Pairwise (· < ·) (inits_expected 0 tbl)
      ∧ tickSeq (register_components_and_init tbl) = []
      ∧ initSeq (kernel_passes tbl n) = []
      ∧ tickSeq (kernel_passes tbl n)
          = List.flatten (List.replicate n (ticks_expected 0 tbl)) := by
  refine ⟨rfl, ?_, inits_expected_pairwise tbl 0, ?_,
    initSeq_kernel_passes tbl n, tickSeq_kernel_passes tbl n⟩
  · unfold register_components_and_init
    by_cases he : tbl.isEmpty
    · have htbl : tbl = [] := List.isEmpty_iff.mp he
      subst htbl
      rfl
    · rw [if_neg he]
      exact initSeq_comp_init_events tbl 0 h
  · unfold register_components_and_init
    by_cases he : tbl.isEmpty
    · rw [if_pos he]
      rfl
    · rw [if_neg he]
      exact tickSeq_comp_init_events tbl 0

theorem registration_order_witness :
    kernel_trace
        [some { name := some ("A"), init := some 1, tick := some 1 },
         some { name := some ("B"), init := none, tick := some 2 },
         some { name := some ("C"), init := some 3, tick := none }] 2
      = register_components_and_init
          [some { name := some ("A"), init := some 1, tick := some 1 },
           some { name := some ("B"), init := none, tick := some 2 },
           some { name := some ("C"), init := some 3, tick := none }]
        ++ kernel_passes
          [some { name := some ("A"), init := some 1, tick := some 1 },
           some { name := some ("B"), init := none, tick := some 2 },
           some { name := some ("C"), init := some 3, tick := none }] 2
      ∧ initSeq (register_components_and_init
          [some { name := some ("A"), init := some 1, tick := some 1 },
           some { name := some ("B"), init := none, tick := some 2 },
           some { name := some ("C"), init := some 3, tick := none }])
        = inits_expected 0
          [some { name := some ("A"), init := some 1, tick := some 1 },
           some { name := some ("B"), init := none, tick := some 2 },
           some { name := some ("C"), init := some 3, tick := none }]
      ∧ List.Pairwise (· < ·) (inits_expected 0
          [some { name := some ("A"), init := some 1, tick := some 1 },
           some { name := some ("B"), init := none, tick := some 2 },
           some { name := some ("C"), init := some 3, tick := none }])
      ∧ tickSeq (register_components_and_init
          [some { name := some ("A"), init := some 1, tick := some 1 },
           some { name := some ("B"), init := none, tick := some 2 },
           some { name := some ("C"), init := some 3, tick := none }]) = []
      ∧ initSeq (kernel_passes
          [some { name := some ("A"), init := some 1, tick := some 1 },
           some { name := some ("B"), init := none, tick := some 2 },
           some { name := some ("C"), init := some 3, tick := none }] 2) = []
      ∧ tickSeq (kernel_passes
          [some { name := some ("A"), init := some 1, tick := some 1 },
           some { name := some ("B"), init := none, tick := some 2 },
           some { name := some ("C"), init := some 3, tick := none }] 2)
        = List.flatten (List.replicate 2 (ticks_expected 0
          [some { name := some ("A"), init := some 1, tick := some 1 },
           some { name := some ("B"), init := none, tick := some 2 },
           some { name := some ("C"), init := some 3, tick := none }])) :=
  registration_order
    [some { name := some ("A"), init := some 1, tick := some 1 },
     some { name := some ("B"), init := none, tick := some 2 },
     some { name := some ("C"), init := some 3, tick := none }] 2 (by decide)

/-! ## Claim C8: empty component table -/

/-- Claim C8: an empty component table produces exactly the single
"No components found." notification (no per-component status lines),
and the main loop then performs zero tick invocations per pass,
forever: for every number of passes `n` the whole trace stays
`[noComponents]` and contains no tick events. -/
theorem empty_table_behavior :
    register_components_and_init [] = [KEvent.noComponents]
      ∧ kernel_tick_pass [] = []
      ∧ ∀ n, kernel_trace [] n = [KEvent.noComponents]
          ∧ tickSeq (kernel_trace [] n) = [] := by
  refine ⟨rfl, rfl, ?_⟩
  intro n
  have hp : kernel_passes [] n = [] := by
    induction n with
    | zero => rfl
    | succ n ih =>
        simp only [kernel_passes, ih]
        rfl
  constructor
  · show register_components_and_init [] ++ kernel_passes [] n = [KEvent.noComponents]
    rw [hp]
    rfl
  · show tickSeq (register_components_and_init [] ++ kernel_passes [] n) = []
    rw [hp]
    rfl

/-! ## Claim C9: unnamed component skipped at init, still ticked -/

theorem comp_init_events_append :
    ∀ (l1 l2 : List (Option Component)) (k : Nat),
      comp_init_events k (l1 ++ l2)
        = comp_init_events k l1 ++ comp_init_events (k + l1.length) l2 := by
  intro l1
  induction l1 with
  | nil =>
      intro l2 k
      simp [comp_init_events]
  | cons c? rest ih =>
      intro l2 k
      simp only [List.cons_append, comp_init_events, List.append_eq]
      rw [ih l2 (k + 1), List.length_cons,
        show k + (rest.length + 1) = k + 1 + rest.length from by omega,
        List.append_assoc]

theorem comp_tick_events_append :
    ∀ (l1 l2 : List (Option Component)) (k : Nat),
      comp_tick_events k (l1 ++ l2)
        = comp_tick_events k l1 ++ comp_tick_events (k + l1.length) l2 := by
  intro l1
  induction l1 with
  | nil =>
      intro l2 k
      simp [comp_tick_events]
  | cons c? rest ih =>
      intro l2 k
      simp only [List.cons_append, comp_tick_events, List.append_eq]
      rw [ih l2 (k + 1), List.length_cons,
        show k + (rest.length + 1) = k + 1 + rest.length from by omega,
        List.append_assoc]

theorem comp_init_events_tag_bounds :
    ∀ (tbl : List (Option Component)) (k j : Nat),
      (KEvent.initCall j ∈ comp_init_events k tbl
        ∨ ∃ nm, KEvent.statusLine j nm ∈ comp_init_events k tbl) →
      k ≤ j ∧ j < k + tbl.length := by
  intro tbl
  induction tbl with
  | nil =>
      intro k j h
      rcases h with h | ⟨nm, h⟩ <;> simp [comp_init_events] at h
  | cons c? rest ih =>
      intro k j h
      have htail : (KEvent.initCall j ∈ comp_init_events (k + 1) rest
          ∨ ∃ nm, KEvent.statusLine j nm ∈ comp_init_events (k + 1) rest) →
          k ≤ j ∧ j < k + (c? :: rest).length := by
        intro h'
        have := ih (k + 1) j h'
        simp only [List.length_cons]
        omega
      cases c? with
      | none =>
          apply htail
          rcases h with h | ⟨nm, h⟩
          · exact Or.inl (by simpa [comp_init_events] using h)
          · exact Or.inr ⟨nm, by simpa [comp_init_events] using h⟩
      | some c =>
          cases hn : c.name with
          | none =>
              apply htail
              rcases h with h | ⟨nm, h⟩
              · exact Or.inl (by simpa [comp_init_events, hn] using h)
              · exact Or.inr ⟨nm, by simpa [comp_init_events, hn] using h⟩
          | some nm0 =>
              cases hi : c.init with
              | none =>
                  rcases h with h | ⟨nm, h⟩
                  · apply htail
                    exact Or.inl (by simpa [comp_init_events, hn, hi] using h)
                  · rw [comp_init_events, hn, hi] at h
                    simp only [List.cons_append, List.nil_append, List.mem_cons] at h
                    rcases h with h | h
                    · have hjk : j = k := by
                        cases h
                        rfl
                      simp only [List.length_cons]
                      omega
                    · exact htail (Or.inr ⟨nm, h⟩)
              | some f =>
                  rcases h with h | ⟨nm, h⟩
                  · rw [comp_init_events, hn, hi] at h
                    simp only [List.cons_append, List.nil_append, List.mem_cons] at h
                    rcases h with h | h | h
                    · exact absurd h (by simp)
                    · have hjk : j = k := by
                        cases h
                        rfl
                      simp only [List.length_cons]
                      omega
                    · exact htail (Or.inl h)
                  · rw [comp_init_events, hn, hi] at h
                    simp only [List.cons_append, List.nil_append, List.mem_cons] at h
                    rcases h with h | h | h
                    · have hjk : j = k := by
                        cases h
                        rfl
                      simp only [List.length_cons]
                      omega
                    · exact absurd h (by simp)
                    · exact htail (Or.inr ⟨nm, h⟩)

/-- Claim C9: a table entry holding a non-null component whose `name`
is null is skipped entirely by the init phase — no status line and no
`init` call are ever produced for its position, even when its `init`
pointer is present — yet the scheduler's tick loop still invokes its
`tick` (when present) on every pass, because the init-phase guard
tests `c && c->name` while the tick-phase guard tests only
`c && c->tick`. -/
theorem unnamed_component_skipped (pre post : List (Option Component)) (c : Component)
    (hname : c.name = none) :
    KEvent.initCall pre.length ∉ register_components_and_init (pre ++ some c :: post)
      ∧ (∀ nm, KEvent.statusLine pre.length nm
          ∉ register_components_and_init (pre ++ some c :: post))
      ∧ (c.tick.isSome = true →
          KEvent.tickCall pre.length ∈ kernel_tick_pass (pre ++ some c :: post)) := by
  have hne : ¬ (pre ++ some c :: post).isEmpty = true := by
    simp
  have hreg : register_components_and_init (pre ++ some c :: post)
      = comp_init_events 0 pre ++ comp_init_events (pre.length + 1) post := by
    unfold register_components_and_init
    rw [if_neg hne, comp_init_events_append]
    have hmid : comp_init_events (0 + pre.length) (some c :: post)
        = comp_init_events (pre.length + 1) post := by
      rw [comp_init_events, hname]
      simp
    rw [hmid]
  have hbound : ∀ (e : KEvent),
      (∃ j, (e = KEvent.initCall j ∨ ∃ nm, e = KEvent.statusLine j nm) ∧ j = pre.length) →
      e ∉ register_components_and_init (pre ++ some c :: post) := by
    intro e ⟨j, hej, hjlen⟩ hmem
    rw [hreg, List.mem_append] at hmem
    rcases hmem with hmem | hmem
    · have hb : 0 ≤ j ∧ j < 0 + pre.length := by
        apply comp_init_events_tag_bounds pre 0 j
        rcases hej with he | ⟨nm, he⟩
        · exact Or.inl (he ▸ hmem)
        · exact Or.inr ⟨nm, he ▸ hmem⟩
      omega
    · have hb : pre.length + 1 ≤ j ∧ j < pre.length + 1 + post.length := by
        apply comp_init_events_tag_bounds post (pre.length + 1) j
        rcases hej with he | ⟨nm, he⟩
        · exact Or.inl (he ▸ hmem)
        · exact Or.inr ⟨nm, he ▸ hmem⟩
      omega
  refine ⟨?_, ?_, ?_⟩
  · exact hbound (KEvent.initCall pre.length) ⟨pre.length, Or.inl rfl, rfl⟩
  · intro nm
    exact hbound (KEvent.statusLine pre.length nm) ⟨pre.length, Or.inr ⟨nm, rfl⟩, rfl⟩
  · intro ht
    obtain ⟨f, hf⟩ := Option.isSome_iff_exists.mp ht
    unfold kernel_tick_pass
    rw [comp_tick_events_append]
    apply List.mem_append_right
    rw [comp_tick_events, hf]
    simp

theorem unnamed_component_skipped_witness :
    KEvent.initCall 1 ∉ register_components_and_init
        [some { name := some ("A"), init := some 1, tick := some 1 },
         some { name := none, init := some 7, tick := some 3 }]
      ∧ (∀ nm, KEvent.statusLine 1 nm ∉ register_components_and_init
          [some { name := some ("A"), init := some 1, tick := some 1 },
           some { name := none, init := some 7, tick := some 3 }])
      ∧ ((Option.some 3).isSome = true → KEvent.tickCall 1 ∈ kernel_tick_pass
          [some { name := some ("A"), init := some 1, tick := some 1 },
           some { name := none, init := some 7, tick := some 3 }]) :=
  unnamed_component_skipped
    [some { name := some ("A"), init := some 1, tick := some 1 }] []
    { name := none, init := some 7, tick := some 3 } rfl

end OpenComp
